import Mathlib

/-!
Verification of `fblualib/thrift/LuaSerialization.cpp` (the Lua binding of the
fblualib thrift serialization module) against its design specification.

The binding's own logic (argument defaulting in `serializeToString` /
`serializeToFile`, the version comparison in `doDeserialize`, `getFP`,
`setCallbacks`, the codec probing loop in `LUAOPEN`, `getVersion`) is embedded
directly from the source.  The serialization core (`encode` / `decode` from
`Encoding.h`, `Serializer::toThrift` / `Deserializer::fromThrift` from
`Serialization.h`) and the folly compression codecs are external to the
single source file; those definitions are modelled from the spec and carry a
`Modelled from the spec:` doc comment.
-/

namespace FbLua

/-! ## The value model

Modelled from the spec §3: the recursive tagged-union of encodable data.
`Nil`, `Bool`, `Int`, `Float` (the double's 64-bit pattern, kept exact as a
`Nat`), `ByteString`, `Table` (ordered array part plus insertion-ordered
key/value map part whose keys are values), `Function` (bytecode blob plus
captured-upvalue list).  The claims under verification range over acyclic
graphs, so a tree-shaped inductive is the faithful fragment: in a tree every
node is a fresh identity and the encoder's reference tracker never emits a
back-reference token. -/
inductive Value where
  | vnil : Value
  | vbool (b : Bool) : Value
  | vint (i : Int) : Value
  | vfloat (bits : Nat) : Value
  | vstr (s : List Nat) : Value
  | vtable (arr : List Value) (hash : List (Value × Value)) : Value
  | vfunc (bytecode : List Nat) (upvalues : List Value) : Value

/-- Sign-interleaved encoding of an `Int` payload into a `Nat` token
(the wire format keeps an explicit int/float discriminator; the integer's
exact value must survive). -/
def intEnc (i : Int) : Nat :=
  if 0 ≤ i then 2 * i.toNat else 2 * (-i).toNat - 1

/-- Inverse of `intEnc`. -/
def intDec (n : Nat) : Int :=
  if n % 2 = 0 then (n / 2 : Int) else -(((n + 1) / 2 : Nat) : Int)

/-! ## The token stream

Modelled from the spec §4.3/§4.4: the encoder walks the value producing a flat
token stream, a type tag followed by the node's payload.  §6 states that no
byte-exact layout is mandated ("conceptual wire format"), so tokens are
natural numbers: tag `0` nil, `1` bool, `2` int, `3` float, `4` byte string
(length-prefixed), `5` table (array length, array elements, map length,
key/value pairs), `6` function (bytecode length, bytecode bytes, upvalue
count, upvalues). -/

mutual

def serV : Value → List Nat
  | .vnil => [0]
  | .vbool b => [1, if b then 1 else 0]
  | .vint i => [2, intEnc i]
  | .vfloat bits => [3, bits]
  | .vstr s => 4 :: s.length :: s
  | .vtable arr hash =>
      5 :: arr.length :: (serVs arr ++ hash.length :: serPairs hash)
  | .vfunc bc ups => 6 :: bc.length :: (bc ++ ups.length :: serVs ups)

def serVs : List Value → List Nat
  | [] => []
  | v :: vs => serV v ++ serVs vs

def serPairs : List (Value × Value) → List Nat
  | [] => []
  | (k, v) :: ps => serV k ++ (serV v ++ serPairs ps)

end

mutual

/-- Nesting depth of a value; used as the deserializer's fuel bound. -/
def depthV : Value → Nat
  | .vtable arr hash => max (depthVs arr) (depthPairs hash) + 1
  | .vfunc _ ups => depthVs ups + 1
  | _ => 1

def depthVs : List Value → Nat
  | [] => 0
  | v :: vs => max (depthV v) (depthVs vs)

def depthPairs : List (Value × Value) → Nat
  | [] => 0
  | (k, v) :: ps => max (max (depthV k) (depthV v)) (depthPairs ps)

end

mutual

/-- Modelled from the spec §4.5: replay the token stream rebuilding value
nodes.  Fuel bounds the nesting depth; a failed parse (unknown tag, truncated
input, exhausted fuel) is `none`. -/
def desV (fuel : Nat) (ts : List Nat) : Option (Value × List Nat) :=
  match fuel, ts with
  | 0, _ => none
  | _ + 1, [] => none
  | _ + 1, 0 :: rest => some (.vnil, rest)
  | _ + 1, 1 :: b :: rest => some (.vbool (b == 1), rest)
  | _ + 1, 2 :: n :: rest => some (.vint (intDec n), rest)
  | _ + 1, 3 :: bits :: rest => some (.vfloat bits, rest)
  | _ + 1, 4 :: n :: rest =>
      if n ≤ rest.length then some (.vstr (rest.take n), rest.drop n) else none
  | fuel + 1, 5 :: n :: rest =>
      match desVs fuel n rest with
      | none => none
      | some (arr, r1) =>
        match r1 with
        | [] => none
        | m :: r2 =>
          match desPairs fuel m r2 with
          | none => none
          | some (hash, r3) => some (.vtable arr hash, r3)
  | fuel + 1, 6 :: bl :: rest =>
      if bl ≤ rest.length then
        match rest.drop bl with
        | [] => none
        | un :: r2 =>
          match desVs fuel un r2 with
          | none => none
          | some (ups, r3) => some (.vfunc (rest.take bl) ups, r3)
      else none
  | _ + 1, _ :: _ => none
termination_by (fuel, 0)

/-- Parse `n` consecutive values. -/
def desVs (fuel : Nat) (n : Nat) (ts : List Nat) :
    Option (List Value × List Nat) :=
  match n with
  | 0 => some ([], ts)
  | n + 1 =>
      match desV fuel ts with
      | none => none
      | some (v, r1) =>
        match desVs fuel n r1 with
        | none => none
        | some (vs, r2) => some (v :: vs, r2)
termination_by (fuel, n + 1)

/-- Parse `n` consecutive key/value pairs. -/
def desPairs (fuel : Nat) (n : Nat) (ts : List Nat) :
    Option (List (Value × Value) × List Nat) :=
  match n with
  | 0 => some ([], ts)
  | n + 1 =>
      match desV fuel ts with
      | none => none
      | some (k, r1) =>
        match desV fuel r1 with
        | none => none
        | some (v, r2) =>
          match desPairs fuel n r2 with
          | none => none
          | some (ps, r3) => some ((k, v) :: ps, r3)
termination_by (fuel, n + 1)

end

/-! ## Codecs

Modelled from the spec §4.2: the compression algorithms are external
collaborators ("treated as an external codec library"); their contract is
`decompress(compress(bytes)) == bytes` ("Codec symmetry").  A codec is a
compress/decompress pair satisfying that contract. -/
structure Codec where
  compress : List Nat → List Nat
  decompress : List Nat → List Nat
  roundtrip : ∀ bs, decompress (compress bs) = bs

/-- Modelled from the spec §4.2: `id = NO_COMPRESSION` is the identity
transform. -/
def noCompressionCodec : Codec :=
  ⟨fun bs => bs, fun bs => bs, fun _ => rfl⟩

/-- The folly `CodecType` values named by `gCodecs`
(`folly/io/Compression.h`, external to this repository). -/
inductive CodecType where
  | NO_COMPRESSION
  | LZ4
  | SNAPPY
  | ZLIB
  | LZMA2
deriving DecidableEq

/-- `static_cast<int>(codecType)`: the folly enum values. -/
def CodecType.toInt : CodecType → Int
  | .NO_COMPRESSION => 1
  | .LZ4 => 2
  | .SNAPPY => 3
  | .ZLIB => 4
  | .LZMA2 => 6

/-! ## Chunking and the wire envelope -/

/-- Modelled from the spec §4.3/§4.4: split the uncompressed token stream
into segments not exceeding the chunk size limit ("chunkSizeLimit (0/absent =
unbounded, single chunk)"). -/
def chunkSplit (limit : Nat) (bs : List Nat) : List (List Nat) :=
  if bs = [] then []
  else if limit = 0 ∨ bs.length ≤ limit then [bs]
  else bs.take limit :: chunkSplit limit (bs.drop limit)
termination_by bs.length
decreasing_by simp only [List.length_drop]; omega

structure LuaVersionInfo where
  interpreterVersion : String
  bytecodeVersion : String

structure DecodedObject where
  luaVersionInfo : LuaVersionInfo
  output : Value

/-- Modelled from the spec §3/§4.3: the envelope is magic, format version,
producer version info, codec id, and the ordered compressed chunks.  §6
mandates no byte-exact header layout, so the envelope is kept structured;
`StringWriter`/`StringReader` transport it losslessly. -/
structure Envelope where
  magic : Nat
  formatVersion : Nat
  producer : LuaVersionInfo
  codecId : Int
  chunks : List (List Nat)

/-- Modelled from the spec §4.3: a magic token (no concrete value is
mandated). -/
def kMagic : Nat := 0x4654

/-- Modelled from the spec §4.3: the format version gating structural
decoding. -/
def kFormatVersion : Nat := 1

/-- Modelled from the spec §4.4 (`encode` of `Encoding.h`, not under src/):
serialize the envelope header, walk the value into the token stream, split it
into segments not exceeding the chunk size limit, compress each segment. -/
def encode (obj : Value) (codecId : Int) (c : Codec)
    (producer : LuaVersionInfo) (chunkSizeLimit : Nat) : Envelope :=
  ⟨kMagic, kFormatVersion, producer, codecId,
   (chunkSplit chunkSizeLimit (serV obj)).map c.compress⟩

/-- Modelled from the spec §4.5 (`decode` of `Encoding.h`, not under src/):
validate the header (unknown format is a FormatError), require the codec id
to be registered (CodecError otherwise), decompress and concatenate the
chunks, replay the token stream. -/
def decode (registry : Int → Option Codec) (e : Envelope) :
    Except String DecodedObject :=
  if e.magic ≠ kMagic ∨ e.formatVersion ≠ kFormatVersion then
    .error "FormatError"
  else
    match registry e.codecId with
    | none => .error "CodecError: unregistered codec id"
    | some c =>
      match desV ((e.chunks.map c.decompress).flatten).length
          ((e.chunks.map c.decompress).flatten) with
      | some (v, []) => .ok ⟨e.producer, v⟩
      | some (_, _ :: _) => .error "FormatError: trailing data"
      | none => .error "TruncatedInputError"

/-! ## The deserializer options and result -/

/-- `Deserializer::NO_BYTECODE` (`Serialization.h`, not under src/; modelled
as bit 0 — the code only ors it in and tests it). -/
def NO_BYTECODE : Nat := 1

structure DeserializeResult where
  value : Value
  bytecodeUsable : Bool

/-- Modelled from the spec §4.5 (`Deserializer::fromThrift`, not under src/):
rebuild the value; under NO_BYTECODE, function nodes "are still reconstructed
but flagged so the caller knows not to execute their bytecode — degrade, do
not fail the whole decode". -/
def fromThrift (options : Nat) (obj : Value) : DeserializeResult :=
  ⟨obj, options &&& NO_BYTECODE == 0⟩

/-! ## The Lua binding (LuaSerialization.cpp) -/

/-- A Lua argument slot as the binding observes it through `lua_type`:
absent (LUA_TNONE), nil, a number, a string, a function, or anything else. -/
inductive LuaArg where
  | tnone
  | tnil
  | tnumber (n : Int)
  | tstring (s : List Nat)
  | tfunction (ref : Nat)
  | tother
deriving DecidableEq

/-- `luaL_checkinteger`: raises an argument error unless the slot holds a
number. -/
def luaLCheckInteger : LuaArg → Except String Int
  | .tnumber n => .ok n
  | _ => .error "bad argument (number expected)"

/-- `luaGetNumber<uint64_t>` (`LuaUtils.h`, not under src/; modelled from its
use here): an optional that is engaged exactly when the slot holds a
number. -/
def luaGetNumberU64 : LuaArg → Option Nat
  | .tnumber n => some (n.toNat % 2 ^ 64)
  | _ => none

/-- The codec argument handling of `serializeToString` (lines 72-75, arg 2)
and `serializeToFile` (lines 107-110, arg 3): if the slot is neither nil nor
absent, `luaL_checkinteger` cast to `CodecType`; otherwise
`CodecType::NO_COMPRESSION`. -/
def codecTypeArg (a : LuaArg) : Except String Int :=
  if a ≠ .tnil ∧ a ≠ .tnone then luaLCheckInteger a
  else .ok CodecType.NO_COMPRESSION.toInt

/-- The chunk size handling of `serializeToString` (lines 76-78) and
`serializeToFile` (lines 111-113): the number argument if present, else
`std::numeric_limits<uint64_t>::max()`. -/
def chunkSizeArg (a : LuaArg) : Nat :=
  match luaGetNumberU64 a with
  | some n => n
  | none => 2 ^ 64 - 1

/-- The `{:04d}` zero-padding of `folly::sformat`: pad the decimal rendering
with leading zeros to a width of at least four. -/
def padZeros4 (n : Nat) : String :=
  let s := toString n
  if s.length < 4 then String.mk (List.replicate (4 - s.length) '0') ++ s
  else s

/-- Line 65: `folly::sformat("LuaJIT:{:04d}", verNum / 100)`. -/
def luajitBytecodeVersion (versionNum : Nat) : String :=
  "LuaJIT:" ++ padZeros4 (versionNum / 100)

/-- `folly::StringPiece::startsWith` on the underlying characters. -/
def strStartsWith (s pre : String) : Bool :=
  pre.data.isPrefixOf s.data

/-- `getVersion` (lines 38-70): requires `jit.version` starting with
"LuaJIT" and `jit.version_num >= 20000`; the bytecode version drops the
patch level since `version_num` is `major*10000 + minor*100 + patchlevel`. -/
def getVersion (jitVersion : String) (versionNum : Nat) :
    Except String LuaVersionInfo :=
  if strStartsWith jitVersion "LuaJIT" then
    if versionNum < 2 * 100 * 100 then
      .error "Invalid LuaJIT version, expected >= 20000"
    else
      .ok ⟨jitVersion, luajitBytecodeVersion versionNum⟩
  else
    .error "Invalid jit.version, expecting LuaJIT"

/-- `sizeof(void*)` on the 64-bit targets this module is built for. -/
def sizeofVoidPtr : Nat := 8

/-- `luaGetStringChecked` strict (`LuaUtils.h`, not under src/; modelled from
its use here): raises unless the slot holds a string (strict: no
number-to-string coercion). -/
def luaGetStringChecked : LuaArg → Except String (List Nat)
  | .tstring s => .ok s
  | _ => .error "bad argument (string expected)"

/-- `memcpy(&fp, filePtrData.data(), sizeof(void*))`: the pointer is rebuilt
from the first `sizeof(void*)` bytes and from nothing else (`take` never
reads past them). -/
def bytesToPtr (bs : List Nat) : Nat :=
  bs.foldr (fun b acc => b + 256 * acc) 0

/-- `getFP` (lines 94-104): fetch the string argument, raise an argument
error unless its length is exactly `sizeof(void*)`, then memcpy those bytes
into the pointer. -/
def getFP (a : LuaArg) : Except String Nat := do
  let filePtrData ← luaGetStringChecked a
  if filePtrData.length = sizeofVoidPtr then
    .ok (bytesToPtr (filePtrData.take sizeofVoidPtr))
  else
    .error "expected FILE* encoded as string"

/-! ## The five entry points

`Serializer::toThrift` / the value walk (`Serialization.h`, not under src/)
is the identity embedding here: the Lean `Value` type plays the role of both
the Lua value on the stack and the thrift object it is converted to, which is
faithful for the acyclic fragment the claims range over. -/

/-- `serializeToString` (lines 71-89): value at arg 1, optional codec at
arg 2, optional chunk size limit at arg 3; `encode` resolves the codec id
through folly's registry (`getCodec` throws for an unknown id, surfaced as an
error). -/
def serializeToString (registry : Int → Option Codec) (val : Value)
    (codecArg chunkArg : LuaArg) (ver : LuaVersionInfo) :
    Except String Envelope := do
  let codecId ← codecTypeArg codecArg
  let chunkSize := chunkSizeArg chunkArg
  match registry codecId with
  | none => .error "CodecError: unknown codec"
  | some c => .ok (encode val codecId c ver chunkSize)

/-- `serializeToFile` (lines 106-124): value at arg 1, FILE* string at arg 2,
optional codec at arg 3, optional chunk size limit at arg 4.  The codec and
chunk arguments are parsed before `getFP` runs, mirroring the source order.
Returns the target FILE* and the envelope written through it. -/
def serializeToFile (registry : Int → Option Codec) (val : Value)
    (fpArg codecArg chunkArg : LuaArg) (ver : LuaVersionInfo) :
    Except String (Nat × Envelope) := do
  let codecId ← codecTypeArg codecArg
  let chunkSize := chunkSizeArg chunkArg
  let fp ← getFP fpArg
  match registry codecId with
  | none => .error "CodecError: unknown codec"
  | some c => .ok (fp, encode val codecId c ver chunkSize)

/-- The option computation of `doDeserialize` (lines 129-136): NO_BYTECODE is
or-ed in when the decoded producer's bytecode version is empty or differs
from the consumer's. -/
def deserializeOptionsFor
    (decodedBytecodeVersion consumerBytecodeVersion : String) : Nat :=
  if decodedBytecodeVersion = "" ∨
      decodedBytecodeVersion ≠ consumerBytecodeVersion then
    0 ||| NO_BYTECODE
  else
    0

/-- `doDeserialize` (lines 126-138): compare bytecode versions, then run the
deserializer with the computed options. -/
def doDeserialize (consumer : LuaVersionInfo)
    (decodedObject : DecodedObject) : DeserializeResult :=
  fromThrift
    (deserializeOptionsFor decodedObject.luaVersionInfo.bytecodeVersion
      consumer.bytecodeVersion)
    decodedObject.output

/-- `deserializeFromString` (lines 140-144): decode the envelope from the
string argument, then `doDeserialize`. -/
def deserializeFromString (registry : Int → Option Codec) (e : Envelope)
    (consumer : LuaVersionInfo) : Except String DeserializeResult := do
  let d ← decode registry e
  .ok (doDeserialize consumer d)

/-- `deserializeFromFile` (lines 146-150): `getFP`, read the envelope through
the handle (`files` maps each open FILE* to the envelope readable from it),
then `doDeserialize`. -/
def deserializeFromFile (registry : Int → Option Codec)
    (files : Nat → Option Envelope) (fpArg : LuaArg)
    (consumer : LuaVersionInfo) : Except String DeserializeResult := do
  let fp ← getFP fpArg
  match files fp with
  | none => .error "TruncatedInputError"
  | some e => do
      let d ← decode registry e
      .ok (doDeserialize consumer d)

/-! ## The hook registry -/

/-- The process-wide special serialization/deserialization callback pair
(`setSpecialSerializationCallback` / `setSpecialDeserializationCallback`,
`Serialization.h`, not under src/: each stores one callback reference). -/
structure HookState where
  serializationCallback : Option Nat
  deserializationCallback : Option Nat

/-- `luaL_checktype(L, i, LUA_TFUNCTION)`: raises unless the slot holds a
function. -/
def luaLCheckFunction : LuaArg → Except String Nat
  | .tfunction ref => .ok ref
  | _ => .error "bad argument (function expected)"

/-- `setCallbacks` (lines 152-159): type-check both arguments, then install
the serialization callback and the deserialization callback. -/
def setCallbacks (st : HookState) (a1 a2 : LuaArg) :
    Except String HookState := do
  let f1 ← luaLCheckFunction a1
  let f2 ← luaLCheckFunction a2
  let st1 : HookState := { st with serializationCallback := some f1 }
  .ok { st1 with deserializationCallback := some f2 }

/-- The process-wide hook state after a `setCallbacks` call: a raised
argument error propagates out of the call before any callback is stored. -/
def runSetCallbacks (st : HookState) (a1 a2 : LuaArg) : HookState :=
  match setCallbacks st a1 a2 with
  | .ok st2 => st2
  | .error _ => st

/-! ## Module initialization -/

structure CodecInfo where
  name : String
  type : CodecType

/-- `gCodecs` (lines 28-34): the known codec list. -/
def gCodecs : List CodecInfo :=
  [⟨"NONE", .NO_COMPRESSION⟩, ⟨"LZ4", .LZ4⟩, ⟨"SNAPPY", .SNAPPY⟩,
   ⟨"ZLIB", .ZLIB⟩, ⟨"LZMA2", .LZMA2⟩]

def kCodecCount : Nat := gCodecs.length

/-- The codec-table loop of `LUAOPEN` (lines 179-188): probe each known
codec with `folly::io::getCodec`; a probe that throws `invalid_argument`
sends control to `continue` (the entry is skipped), otherwise the entry is
set under its name.  `getCodecOk` abstracts which probes succeed (some
compression libraries may be compiled out). -/
def buildCodecTable (getCodecOk : CodecType → Bool) :
    List CodecInfo → List (String × Int)
  | [] => []
  | ci :: rest =>
      if getCodecOk ci.type then
        (ci.name, ci.type.toInt) :: buildCodecTable getCodecOk rest
      else
        buildCodecTable getCodecOk rest

/-- `LUAOPEN` (lines 172-192): build the module table; the codec table is
built by the probing loop, and the function is total — a failed probe never
aborts initialization. -/
def LUAOPEN (getCodecOk : CodecType → Bool) : List (String × Int) :=
  buildCodecTable getCodecOk gCodecs

/-- Whether a Lua argument slot holds a function. -/
def isFunctionArg : LuaArg → Bool
  | .tfunction _ => true
  | _ => false

/-- A fixed sample registry holding only the identity codec, for concrete
witnesses. -/
def sampleRegistry : Int → Option Codec :=
  fun i => if i = 1 then some noCompressionCodec else none

/-- A fixed sample version info for concrete witnesses. -/
def sampleVersion : LuaVersionInfo :=
  ⟨"LuaJIT 2.0.3", "LuaJIT:0200"⟩

/-! ## Theorems -/

theorem intDec_intEnc (i : Int) : intDec (intEnc i) = i := by
  unfold intEnc intDec
  rcases le_or_lt 0 i with h | h
  · simp only [if_pos h]
    have h2 : (2 * i.toNat) % 2 = 0 := by omega
    simp only [if_pos h2]
    omega
  · have hneg : ¬ (0 ≤ i) := by omega
    simp only [if_neg hneg]
    have h1 : 1 ≤ (-i).toNat := by omega
    have h2 : (2 * (-i).toNat - 1) % 2 = 1 := by omega
    simp only [h2]
    norm_num
    omega

theorem one_le_depthV (v : Value) : 1 ≤ depthV v := by
  cases v <;> simp [depthV]

theorem take_len_append (l r : List Nat) : (l ++ r).take l.length = l := by
  induction l with
  | nil => rfl
  | cons a l ih => simp [ih]

theorem drop_len_append (l r : List Nat) : (l ++ r).drop l.length = r := by
  induction l with
  | nil => rfl
  | cons a l ih => simp [ih]

mutual

theorem desV_serV : ∀ (v : Value) (fuel : Nat) (rest : List Nat),
    depthV v ≤ fuel → desV fuel (serV v ++ rest) = some (v, rest)
  | v, 0, _, h => absurd (le_trans (one_le_depthV v) h) (by decide)
  | .vnil, _ + 1, rest, _ => by simp [serV, desV]
  | .vbool b, _ + 1, rest, _ => by cases b <;> simp [serV, desV]
  | .vint i, _ + 1, rest, _ => by simp [serV, desV, intDec_intEnc]
  | .vfloat bits, _ + 1, rest, _ => by simp [serV, desV]
  | .vstr s, _ + 1, rest, _ => by
      simp only [serV, List.cons_append, desV]
      rw [if_pos (by simp)]
      rw [take_len_append, drop_len_append]
  | .vtable arr hash, fuel + 1, rest, h => by
      have h' : max (depthVs arr) (depthPairs hash) ≤ fuel := by
        simp only [depthV] at h; omega
      have ih1 := desVs_serVs arr fuel (hash.length :: (serPairs hash ++ rest))
        (le_trans (Nat.le_max_left _ _) h')
      have ih2 := desPairs_serPairs hash fuel rest
        (le_trans (Nat.le_max_right _ _) h')
      simp only [serV, List.cons_append, List.append_assoc]
      simp only [desV, ih1, ih2]
  | .vfunc bc ups, fuel + 1, rest, h => by
      have h' : depthVs ups ≤ fuel := by
        simp only [depthV] at h; omega
      have ih := desVs_serVs ups fuel rest h'
      simp only [serV, List.cons_append, List.append_assoc]
      simp only [desV]
      rw [if_pos (by simp)]
      rw [take_len_append, drop_len_append]
      simp only [ih]

theorem desVs_serVs : ∀ (vs : List Value) (fuel : Nat) (rest : List Nat),
    depthVs vs ≤ fuel → desVs fuel vs.length (serVs vs ++ rest) = some (vs, rest)
  | [], fuel, rest, _ => by simp [serVs, desVs]
  | v :: vs, fuel, rest, h => by
      have h' : max (depthV v) (depthVs vs) ≤ fuel := by
        simp only [depthVs] at h; omega
      have ih1 := desV_serV v fuel (serVs vs ++ rest)
        (le_trans (Nat.le_max_left _ _) h')
      have ih2 := desVs_serVs vs fuel rest
        (le_trans (Nat.le_max_right _ _) h')
      simp only [serVs, List.append_assoc, List.length_cons]
      simp only [desVs, ih1, ih2]

theorem desPairs_serPairs : ∀ (ps : List (Value × Value)) (fuel : Nat)
    (rest : List Nat),
    depthPairs ps ≤ fuel →
    desPairs fuel ps.length (serPairs ps ++ rest) = some (ps, rest)
  | [], fuel, rest, _ => by simp [serPairs, desPairs]
  | (k, v) :: ps, fuel, rest, h => by
      have h' : max (max (depthV k) (depthV v)) (depthPairs ps) ≤ fuel := by
        simp only [depthPairs] at h; omega
      have ih1 := desV_serV k fuel (serV v ++ (serPairs ps ++ rest))
        (le_trans (le_trans (Nat.le_max_left _ _) (Nat.le_max_left _ _)) h')
      have ih2 := desV_serV v fuel (serPairs ps ++ rest)
        (le_trans (le_trans (Nat.le_max_right _ _) (Nat.le_max_left _ _)) h')
      have ih3 := desPairs_serPairs ps fuel rest
        (le_trans (Nat.le_max_right _ _) h')
      simp only [serPairs, List.append_assoc, List.length_cons]
      simp only [desPairs, ih1, ih2, ih3]

end

mutual

theorem depthV_le_length : ∀ v : Value, depthV v ≤ (serV v).length
  | .vnil => by simp [depthV, serV]
  | .vbool _ => by simp [depthV, serV]
  | .vint _ => by simp [depthV, serV]
  | .vfloat _ => by simp [depthV, serV]
  | .vstr _ => by simp [depthV, serV]
  | .vtable arr hash => by
      have h1 := depthVs_le_length arr
      have h2 := depthPairs_le_length hash
      simp only [depthV, serV, List.length_cons, List.length_append]
      omega
  | .vfunc bc ups => by
      have h := depthVs_le_length ups
      simp only [depthV, serV, List.length_cons, List.length_append]
      omega

theorem depthVs_le_length : ∀ vs : List Value, depthVs vs ≤ (serVs vs).length
  | [] => by simp [depthVs, serVs]
  | v :: vs => by
      have h1 := depthV_le_length v
      have h2 := depthVs_le_length vs
      simp only [depthVs, serVs, List.length_append]
      omega

theorem depthPairs_le_length :
    ∀ ps : List (Value × Value), depthPairs ps ≤ (serPairs ps).length
  | [] => by simp [depthPairs, serPairs]
  | (k, v) :: ps => by
      have h1 := depthV_le_length k
      have h2 := depthV_le_length v
      have h3 := depthPairs_le_length ps
      simp only [depthPairs, serPairs, List.length_append]
      omega

end

/-- The serialized token stream of a value is never empty (it always starts
with the node's type tag). -/
theorem serV_ne_nil (v : Value) : serV v ≠ [] := by
  cases v <;> simp [serV]

theorem chunkSplit_flatten (limit : Nat) (bs : List Nat) :
    (chunkSplit limit bs).flatten = bs := by
  generalize hn : bs.length = n
  induction n using Nat.strong_induction_on generalizing bs with
  | _ n ih =>
    rw [chunkSplit]
    split
    · simp [*]
    · split
      · simp
      · rename_i hne hgt
        simp only [List.flatten_cons]
        rw [ih (bs.length - limit) (by omega) (bs.drop limit) (by simp)]
        exact List.take_append_drop limit bs

/-- A nonempty payload that fits in the limit is written as a single chunk. -/
theorem chunkSplit_single (limit : Nat) (bs : List Nat) (h1 : bs ≠ [])
    (h2 : bs.length ≤ limit) : chunkSplit limit bs = [bs] := by
  rw [chunkSplit]
  simp [h1, h2]

theorem except_bind_ok {α β ε : Type} (a : α) (f : α → Except ε β) :
    (Except.ok a : Except ε α) >>= f = f a := rfl

theorem except_bind_err {α β ε : Type} (e : ε) (f : α → Except ε β) :
    (Except.error e : Except ε α) >>= f = Except.error e := rfl

theorem decompress_compress_map (c : Codec) (l : List (List Nat)) :
    (l.map c.compress).map c.decompress = l := by
  induction l with
  | nil => rfl
  | cons a l ih => simp [c.roundtrip, ih]

/-- C1: for every acyclic value built from the primitive tags, every
registered codec and every chunk size limit (unbounded, 1, 16, 4096
included), decoding the bytes produced by encoding — `deserializeFromString`
composed with `serializeToString` — yields a value equal to the input. -/
theorem C1_roundtrip (registry : Int → Option Codec)
    (codecArg chunkArg : LuaArg) (v : Value) (ver : LuaVersionInfo)
    (codecId : Int) (c : Codec)
    (hcodec : codecTypeArg codecArg = .ok codecId)
    (hreg : registry codecId = some c) :
    ∃ env res,
      serializeToString registry v codecArg chunkArg ver = .ok env ∧
      deserializeFromString registry env ver = .ok res ∧
      res.value = v := by
  have hser : serializeToString registry v codecArg chunkArg ver =
      .ok (encode v codecId c ver (chunkSizeArg chunkArg)) := by
    simp [serializeToString, hcodec, hreg, except_bind_ok]
  have hfuel := desV_serV v (serV v).length [] (depthV_le_length v)
  rw [List.append_nil] at hfuel
  have hdec : decode registry (encode v codecId c ver (chunkSizeArg chunkArg)) =
      .ok ⟨ver, v⟩ := by
    simp only [decode, encode, hreg, decompress_compress_map,
      chunkSplit_flatten]
    rw [if_neg (by simp)]
    simp [hfuel]
  refine ⟨encode v codecId c ver (chunkSizeArg chunkArg),
    doDeserialize ver ⟨ver, v⟩, hser, ?_, ?_⟩
  · simp [deserializeFromString, hdec, except_bind_ok]
  · simp [doDeserialize, fromThrift]

theorem C1_roundtrip_witness :
    ∃ env res,
      serializeToString sampleRegistry
          (.vtable [.vint 3, .vfloat 77] [(.vstr [107], .vbool true)])
          .tnil (.tnumber 16) sampleVersion = .ok env ∧
      deserializeFromString sampleRegistry env sampleVersion = .ok res ∧
      res.value = .vtable [.vint 3, .vfloat 77] [(.vstr [107], .vbool true)] :=
  C1_roundtrip sampleRegistry .tnil (.tnumber 16)
    (.vtable [.vint 3, .vfloat 77] [(.vstr [107], .vbool true)])
    sampleVersion CodecType.NO_COMPRESSION.toInt noCompressionCodec rfl rfl

/-- C2: a payload encoded under producer bytecode version X and decoded by a
consumer whose bytecode version Y differs decodes successfully, is flagged
bytecode-unusable (the NO_BYTECODE deserializer option), and the whole value
— a fortiori all non-function data — is fully recovered. -/
theorem C2_version_degrade (registry : Int → Option Codec)
    (codecArg chunkArg : LuaArg) (v : Value)
    (producer consumer : LuaVersionInfo) (codecId : Int) (c : Codec)
    (hcodec : codecTypeArg codecArg = .ok codecId)
    (hreg : registry codecId = some c)
    (hver : producer.bytecodeVersion ≠ consumer.bytecodeVersion) :
    ∃ env res,
      serializeToString registry v codecArg chunkArg producer = .ok env ∧
      deserializeFromString registry env consumer = .ok res ∧
      res.bytecodeUsable = false ∧
      res.value = v := by
  have hser : serializeToString registry v codecArg chunkArg producer =
      .ok (encode v codecId c producer (chunkSizeArg chunkArg)) := by
    simp [serializeToString, hcodec, hreg, except_bind_ok]
  have hfuel := desV_serV v (serV v).length [] (depthV_le_length v)
  rw [List.append_nil] at hfuel
  have hdec : decode registry
      (encode v codecId c producer (chunkSizeArg chunkArg)) =
      .ok ⟨producer, v⟩ := by
    simp only [decode, encode, hreg, decompress_compress_map,
      chunkSplit_flatten]
    rw [if_neg (by simp)]
    simp [hfuel]
  refine ⟨encode v codecId c producer (chunkSizeArg chunkArg),
    doDeserialize consumer ⟨producer, v⟩, hser, ?_, ?_, ?_⟩
  · simp [deserializeFromString, hdec, except_bind_ok]
  · simp [doDeserialize, fromThrift, deserializeOptionsFor, hver, NO_BYTECODE]
  · simp [doDeserialize, fromThrift]

theorem C2_version_degrade_witness :
    ("LuaJIT:0200" : String) ≠ "LuaJIT:0201" ∧
    ∃ env res,
      serializeToString sampleRegistry (.vfunc [9, 9] [.vint 5]) .tnil .tnil
        ⟨"LuaJIT 2.0.3", "LuaJIT:0200"⟩ = .ok env ∧
      deserializeFromString sampleRegistry env
        ⟨"LuaJIT 2.1.0", "LuaJIT:0201"⟩ = .ok res ∧
      res.bytecodeUsable = false ∧
      res.value = .vfunc [9, 9] [.vint 5] :=
  ⟨by decide,
   C2_version_degrade sampleRegistry .tnil .tnil (.vfunc [9, 9] [.vint 5])
     ⟨"LuaJIT 2.0.3", "LuaJIT:0200"⟩ ⟨"LuaJIT 2.1.0", "LuaJIT:0201"⟩
     CodecType.NO_COMPRESSION.toInt noCompressionCodec rfl rfl (by decide)⟩

theorem mem_buildCodecTable (getCodecOk : CodecType → Bool)
    (l : List CodecInfo) (name : String) (id : Int) :
    (name, id) ∈ buildCodecTable getCodecOk l ↔
      ∃ ci ∈ l, getCodecOk ci.type = true ∧ name = ci.name ∧
        id = ci.type.toInt := by
  induction l with
  | nil => simp [buildCodecTable]
  | cons ci rest ih =>
      by_cases h : getCodecOk ci.type <;> simp [buildCodecTable, h, ih]

/-- C3: the codec table exposed by module initialization holds exactly the
entries of the known codec list whose probe succeeds; an entry whose probe
throws is skipped by the loop's continue (initialization is a total function
and still produces the table). -/
theorem C3_available_codecs (getCodecOk : CodecType → Bool)
    (name : String) (id : Int) :
    (name, id) ∈ LUAOPEN getCodecOk ↔
      ∃ ci ∈ gCodecs, getCodecOk ci.type = true ∧ name = ci.name ∧
        id = ci.type.toInt :=
  mem_buildCodecTable getCodecOk gCodecs name id

/-- C4: whenever the NO_COMPRESSION probe succeeds — which the spec
guarantees ("id = NO_COMPRESSION is always available") — the NONE entry is in
the codec table, and the NO_COMPRESSION codec is the identity transform on
byte buffers (so decompressing after compressing is the identity). -/
theorem C4_no_compression (getCodecOk : CodecType → Bool)
    (h : getCodecOk .NO_COMPRESSION = true) (bs : List Nat) :
    ("NONE", CodecType.NO_COMPRESSION.toInt) ∈ LUAOPEN getCodecOk ∧
    noCompressionCodec.compress bs = bs ∧
    noCompressionCodec.decompress (noCompressionCodec.compress bs) = bs := by
  refine ⟨?_, rfl, rfl⟩
  simp [LUAOPEN, gCodecs, buildCodecTable, h]

theorem C4_no_compression_witness :
    ((fun _ : CodecType => true) CodecType.NO_COMPRESSION = true) ∧
    (("NONE", CodecType.NO_COMPRESSION.toInt) ∈ LUAOPEN (fun _ => true) ∧
     noCompressionCodec.compress [7, 0, 255] = [7, 0, 255] ∧
     noCompressionCodec.decompress
       (noCompressionCodec.compress [7, 0, 255]) = [7, 0, 255]) :=
  ⟨rfl, C4_no_compression (fun _ => true) rfl [7, 0, 255]⟩

/-- C5: when the codec argument is omitted (nil or nothing), both encode
entry points use codec NO_COMPRESSION: the produced envelope carries the
NO_COMPRESSION codec id. -/
theorem C5_default_codec (registry : Int → Option Codec) (v : Value)
    (codecArg chunkArg : LuaArg) (ver : LuaVersionInfo) (c : Codec)
    (fpBytes : List Nat)
    (ha : codecArg = .tnil ∨ codecArg = .tnone)
    (hreg : registry CodecType.NO_COMPRESSION.toInt = some c)
    (hfp : fpBytes.length = sizeofVoidPtr) :
    (∃ env, serializeToString registry v codecArg chunkArg ver = .ok env ∧
       env.codecId = CodecType.NO_COMPRESSION.toInt) ∧
    (∃ fp env,
       serializeToFile registry v (.tstring fpBytes) codecArg chunkArg ver =
         .ok (fp, env) ∧
       env.codecId = CodecType.NO_COMPRESSION.toInt) := by
  have hsel : codecTypeArg codecArg =
      .ok CodecType.NO_COMPRESSION.toInt := by
    rcases ha with h | h <;> subst h <;> simp [codecTypeArg]
  have hgetfp : getFP (.tstring fpBytes) =
      .ok (bytesToPtr (fpBytes.take sizeofVoidPtr)) := by
    simp [getFP, luaGetStringChecked, hfp, except_bind_ok]
  constructor
  · exact ⟨encode v CodecType.NO_COMPRESSION.toInt c ver
      (chunkSizeArg chunkArg),
      by simp [serializeToString, hsel, hreg, except_bind_ok], rfl⟩
  · exact ⟨bytesToPtr (fpBytes.take sizeofVoidPtr),
      encode v CodecType.NO_COMPRESSION.toInt c ver (chunkSizeArg chunkArg),
      by simp [serializeToFile, hsel, hreg, hgetfp, except_bind_ok], rfl⟩

theorem C5_default_codec_witness :
    ((LuaArg.tnil = LuaArg.tnil ∨ LuaArg.tnil = LuaArg.tnone) ∧
     sampleRegistry CodecType.NO_COMPRESSION.toInt =
       some noCompressionCodec ∧
     ([0, 1, 2, 3, 4, 5, 6, 7] : List Nat).length = sizeofVoidPtr) ∧
    ((∃ env, serializeToString sampleRegistry (.vint 42) .tnil .tnil
         sampleVersion = .ok env ∧
       env.codecId = CodecType.NO_COMPRESSION.toInt) ∧
     (∃ fp env,
       serializeToFile sampleRegistry (.vint 42)
         (.tstring [0, 1, 2, 3, 4, 5, 6, 7]) .tnil .tnil sampleVersion =
           .ok (fp, env) ∧
       env.codecId = CodecType.NO_COMPRESSION.toInt)) :=
  ⟨⟨Or.inl rfl, rfl, rfl⟩,
   C5_default_codec sampleRegistry (.vint 42) .tnil .tnil sampleVersion
     noCompressionCodec [0, 1, 2, 3, 4, 5, 6, 7] (Or.inl rfl) rfl rfl⟩

/-- C6: when the chunk size limit argument is omitted, the limit used is
the maximum uint64 value, and the payload goes out as a single chunk, for
both encode entry points. -/
theorem C6_default_chunk (registry : Int → Option Codec) (v : Value)
    (codecArg chunkArg : LuaArg) (ver : LuaVersionInfo) (codecId : Int)
    (c : Codec) (fpBytes : List Nat)
    (hchunk : chunkArg = .tnil ∨ chunkArg = .tnone)
    (hcodec : codecTypeArg codecArg = .ok codecId)
    (hreg : registry codecId = some c)
    (hlen : (serV v).length ≤ 2 ^ 64 - 1)
    (hfp : fpBytes.length = sizeofVoidPtr) :
    chunkSizeArg chunkArg = 2 ^ 64 - 1 ∧
    (∃ env, serializeToString registry v codecArg chunkArg ver = .ok env ∧
       env.chunks = [c.compress (serV v)] ∧ env.chunks.length = 1) ∧
    (∃ fp env,
       serializeToFile registry v (.tstring fpBytes) codecArg chunkArg ver =
         .ok (fp, env) ∧
       env.chunks = [c.compress (serV v)] ∧ env.chunks.length = 1) := by
  have hsize : chunkSizeArg chunkArg = 2 ^ 64 - 1 := by
    rcases hchunk with h | h <;> subst h <;> simp [chunkSizeArg, luaGetNumberU64]
  have hsingle : chunkSplit (chunkSizeArg chunkArg) (serV v) = [serV v] := by
    rw [hsize]
    exact chunkSplit_single _ _ (serV_ne_nil v) hlen
  have hgetfp : getFP (.tstring fpBytes) =
      .ok (bytesToPtr (fpBytes.take sizeofVoidPtr)) := by
    simp [getFP, luaGetStringChecked, hfp, except_bind_ok]
  refine ⟨hsize, ?_, ?_⟩
  · refine ⟨encode v codecId c ver (chunkSizeArg chunkArg),
      by simp [serializeToString, hcodec, hreg, except_bind_ok], ?_, ?_⟩ <;>
      simp [encode, hsingle]
  · refine ⟨bytesToPtr (fpBytes.take sizeofVoidPtr),
      encode v codecId c ver (chunkSizeArg chunkArg),
      by simp [serializeToFile, hcodec, hreg, hgetfp, except_bind_ok],
      ?_, ?_⟩ <;> simp [encode, hsingle]

theorem C6_default_chunk_witness :
    ((LuaArg.tnil = LuaArg.tnil ∨ LuaArg.tnil = LuaArg.tnone) ∧
     codecTypeArg .tnil = .ok CodecType.NO_COMPRESSION.toInt ∧
     sampleRegistry CodecType.NO_COMPRESSION.toInt =
       some noCompressionCodec ∧
     (serV (.vstr [10, 20, 30])).length ≤ 2 ^ 64 - 1 ∧
     ([0, 1, 2, 3, 4, 5, 6, 7] : List Nat).length = sizeofVoidPtr) ∧
    (chunkSizeArg .tnil = 2 ^ 64 - 1 ∧
     (∃ env, serializeToString sampleRegistry (.vstr [10, 20, 30]) .tnil .tnil
          sampleVersion = .ok env ∧
        env.chunks = [noCompressionCodec.compress (serV (.vstr [10, 20, 30]))] ∧
        env.chunks.length = 1) ∧
     (∃ fp env,
        serializeToFile sampleRegistry (.vstr [10, 20, 30])
          (.tstring [0, 1, 2, 3, 4, 5, 6, 7]) .tnil .tnil sampleVersion =
            .ok (fp, env) ∧
        env.chunks = [noCompressionCodec.compress (serV (.vstr [10, 20, 30]))] ∧
        env.chunks.length = 1)) :=
  ⟨⟨Or.inl rfl, rfl, rfl, by decide, rfl⟩,
   C6_default_chunk sampleRegistry (.vstr [10, 20, 30]) .tnil .tnil
     sampleVersion CodecType.NO_COMPRESSION.toInt noCompressionCodec
     [0, 1, 2, 3, 4, 5, 6, 7] (Or.inl rfl) rfl rfl (by decide) rfl⟩

/-- C7: `setCallbacks` installs the serialization and deserialization
callbacks together, overwriting any previous pair; if either argument is not
a function the call raises before installing anything and the previously
installed pair is unchanged. -/
theorem C7_set_callbacks (st : HookState) (a1 a2 : LuaArg) :
    (∀ f1 f2, a1 = .tfunction f1 → a2 = .tfunction f2 →
       setCallbacks st a1 a2 = .ok ⟨some f1, some f2⟩) ∧
    (isFunctionArg a1 = false ∨ isFunctionArg a2 = false →
       (∃ e, setCallbacks st a1 a2 = .error e) ∧
       runSetCallbacks st a1 a2 = st) := by
  constructor
  · intro f1 f2 h1 h2
    subst h1; subst h2
    simp [setCallbacks, luaLCheckFunction, except_bind_ok]
  · intro h
    have herr : ∃ e, setCallbacks st a1 a2 = .error e := by
      rcases h with h | h
      · cases a1 <;> simp_all [isFunctionArg, setCallbacks,
          luaLCheckFunction, except_bind_ok, except_bind_err]
      · cases a2 <;> simp_all [isFunctionArg, setCallbacks,
          luaLCheckFunction, except_bind_ok, except_bind_err] <;>
          cases a1 <;> simp [luaLCheckFunction, except_bind_ok,
            except_bind_err]
    obtain ⟨e, he⟩ := herr
    exact ⟨⟨e, he⟩, by simp [runSetCallbacks, he]⟩

theorem C7_set_callbacks_witness :
    setCallbacks ⟨some 7, some 8⟩ (.tfunction 1) (.tfunction 2) =
      .ok ⟨some 1, some 2⟩ ∧
    runSetCallbacks ⟨some 7, some 8⟩ .tnil (.tfunction 2) =
      ⟨some 7, some 8⟩ :=
  ⟨(C7_set_callbacks ⟨some 7, some 8⟩ (.tfunction 1) (.tfunction 2)).1
     1 2 rfl rfl,
   ((C7_set_callbacks ⟨some 7, some 8⟩ .tnil (.tfunction 2)).2
     (Or.inl rfl)).2⟩

/-- C8: an empty producer bytecode version makes the decoder set the
NO_BYTECODE option exactly as a mismatched version does, and the decode
still succeeds, fully rebuilding the payload. -/
theorem C8_empty_version (consumer : LuaVersionInfo) (d : DecodedObject)
    (hempty : d.luaVersionInfo.bytecodeVersion = "")
    (w : String) (hw : w ≠ consumer.bytecodeVersion) :
    deserializeOptionsFor d.luaVersionInfo.bytecodeVersion
        consumer.bytecodeVersion = NO_BYTECODE ∧
    deserializeOptionsFor d.luaVersionInfo.bytecodeVersion
        consumer.bytecodeVersion =
      deserializeOptionsFor w consumer.bytecodeVersion ∧
    (doDeserialize consumer d).bytecodeUsable = false ∧
    (doDeserialize consumer d).value = d.output := by
  have h1 : deserializeOptionsFor d.luaVersionInfo.bytecodeVersion
      consumer.bytecodeVersion = NO_BYTECODE := by
    simp [deserializeOptionsFor, hempty]
  have h2 : deserializeOptionsFor w consumer.bytecodeVersion =
      NO_BYTECODE := by
    simp [deserializeOptionsFor, hw]
  refine ⟨h1, by rw [h1, h2], ?_, ?_⟩
  · simp [doDeserialize, fromThrift, h1, NO_BYTECODE]
  · simp [doDeserialize, fromThrift]

theorem C8_empty_version_witness :
    (("" : String) = "" ∧ ("LuaJIT:9999" : String) ≠ "LuaJIT:0200") ∧
    (deserializeOptionsFor "" "LuaJIT:0200" = NO_BYTECODE ∧
     deserializeOptionsFor "" "LuaJIT:0200" =
       deserializeOptionsFor "LuaJIT:9999" "LuaJIT:0200" ∧
     (doDeserialize sampleVersion ⟨⟨"LuaJIT 1.9.0", ""⟩, .vint 4⟩
        ).bytecodeUsable = false ∧
     (doDeserialize sampleVersion ⟨⟨"LuaJIT 1.9.0", ""⟩, .vint 4⟩).value =
       .vint 4) :=
  ⟨⟨rfl, by decide⟩,
   C8_empty_version sampleVersion ⟨⟨"LuaJIT 1.9.0", ""⟩, .vint 4⟩ rfl
     "LuaJIT:9999" (by decide)⟩

theorem luajit_append_ne_empty (s : String) : "LuaJIT:" ++ s ≠ "" := by
  intro h
  have h2 := congrArg String.data h
  simp [String.data_append] at h2

/-- C9: the bytecode version string computed from the running interpreter is
"LuaJIT:" followed by the zero-padded version_num / 100, and version_num is
major*10000 + minor*100 + patchlevel, so the string depends only on major
and minor; two runtimes differing only in patch level produce equal strings
and compare as bytecode-compatible in doDeserialize. -/
theorem C9_patch_level (jitVersion : String) (M m p1 p2 : Nat)
    (hjv : strStartsWith jitVersion "LuaJIT" = true)
    (hM : 2 ≤ M) (hp1 : p1 < 100) (hp2 : p2 < 100) :
    ∃ i1 i2,
      getVersion jitVersion (M * 10000 + m * 100 + p1) = .ok i1 ∧
      getVersion jitVersion (M * 10000 + m * 100 + p2) = .ok i2 ∧
      i1.bytecodeVersion = "LuaJIT:" ++ padZeros4 (M * 100 + m) ∧
      i1.bytecodeVersion = i2.bytecodeVersion ∧
      deserializeOptionsFor i1.bytecodeVersion i2.bytecodeVersion = 0 := by
  have hok : ∀ p, p < 100 →
      getVersion jitVersion (M * 10000 + m * 100 + p) =
        .ok ⟨jitVersion, "LuaJIT:" ++ padZeros4 (M * 100 + m)⟩ := by
    intro p hp
    have hdiv : (M * 10000 + m * 100 + p) / 100 = M * 100 + m := by omega
    have hge : ¬ (M * 10000 + m * 100 + p < 2 * 100 * 100) := by omega
    simp [getVersion, hjv, hge, luajitBytecodeVersion, hdiv]
  refine ⟨⟨jitVersion, "LuaJIT:" ++ padZeros4 (M * 100 + m)⟩,
    ⟨jitVersion, "LuaJIT:" ++ padZeros4 (M * 100 + m)⟩,
    hok p1 hp1, hok p2 hp2, rfl, rfl, ?_⟩
  simp [deserializeOptionsFor, luajit_append_ne_empty]

theorem C9_patch_level_witness :
    ((strStartsWith "LuaJIT 2.0.4" "LuaJIT" = true) ∧ 2 ≤ 2 ∧ 3 < 100 ∧
      4 < 100) ∧
    (∃ i1 i2,
      getVersion "LuaJIT 2.0.4" (2 * 10000 + 0 * 100 + 3) = .ok i1 ∧
      getVersion "LuaJIT 2.0.4" (2 * 10000 + 0 * 100 + 4) = .ok i2 ∧
      i1.bytecodeVersion = "LuaJIT:" ++ padZeros4 (2 * 100 + 0) ∧
      i1.bytecodeVersion = i2.bytecodeVersion ∧
      deserializeOptionsFor i1.bytecodeVersion i2.bytecodeVersion = 0) :=
  ⟨⟨by decide, by decide, by decide, by decide⟩,
   C9_patch_level "LuaJIT 2.0.4" 2 0 3 4 (by decide) (by decide)
     (by decide) (by decide)⟩

/-- C10: the file entry points decode the FILE* through getFP, which raises
an argument error whenever the argument is not a string of length exactly
sizeof(void*); the pointer is reconstructed only when the length check
passes, and only from the first sizeof(void*) bytes, so the memcpy never
reads past the argument string.  Both file entry points propagate the
error. -/
theorem C10_getFP_check (a : LuaArg) (registry : Int → Option Codec)
    (files : Nat → Option Envelope) (consumer ver : LuaVersionInfo)
    (v : Value) (chunkArg : LuaArg) :
    (∀ s, a = .tstring s → s.length = sizeofVoidPtr →
       getFP a = .ok (bytesToPtr (s.take sizeofVoidPtr))) ∧
    (∀ s, a = .tstring s → s.length ≠ sizeofVoidPtr →
       getFP a = .error "expected FILE* encoded as string") ∧
    (∀ p, getFP a = .ok p → ∃ s, a = .tstring s ∧
       s.length = sizeofVoidPtr ∧ p = bytesToPtr (s.take sizeofVoidPtr)) ∧
    (∀ s, a = .tstring s → s.length ≠ sizeofVoidPtr →
       deserializeFromFile registry files a consumer =
         .error "expected FILE* encoded as string" ∧
       serializeToFile registry v a .tnil chunkArg ver =
         .error "expected FILE* encoded as string") := by
  refine ⟨?_, ?_, ?_, ?_⟩
  · intro s h hl
    subst h
    simp [getFP, luaGetStringChecked, hl, except_bind_ok]
  · intro s h hl
    subst h
    simp [getFP, luaGetStringChecked, hl, except_bind_ok]
  · intro p hp
    cases a <;>
      simp [getFP, luaGetStringChecked, except_bind_ok, except_bind_err]
        at hp
    rename_i s
    by_cases hl : s.length = sizeofVoidPtr
    · refine ⟨s, rfl, hl, ?_⟩
      simp [hl] at hp
      exact hp.symm
    · simp [hl] at hp
  · intro s h hl
    subst h
    have hfp : getFP (.tstring s) =
        .error "expected FILE* encoded as string" := by
      simp [getFP, luaGetStringChecked, hl, except_bind_ok]
    constructor
    · simp [deserializeFromFile, hfp, except_bind_err, except_bind_ok]
    · simp [serializeToFile, codecTypeArg, hfp, except_bind_err,
        except_bind_ok]

theorem C10_getFP_check_witness :
    getFP (.tstring [1, 2, 3, 4, 5, 6, 7, 8]) =
      .ok (bytesToPtr ([1, 2, 3, 4, 5, 6, 7, 8].take sizeofVoidPtr)) ∧
    getFP (.tstring [1, 2, 3]) =
      .error "expected FILE* encoded as string" ∧
    deserializeFromFile sampleRegistry (fun _ => none) (.tstring [1, 2, 3])
      sampleVersion = .error "expected FILE* encoded as string" :=
  ⟨(C10_getFP_check (.tstring [1, 2, 3, 4, 5, 6, 7, 8]) sampleRegistry
      (fun _ => none) sampleVersion sampleVersion .vnil .tnil).1 _ rfl rfl,
   (C10_getFP_check (.tstring [1, 2, 3]) sampleRegistry (fun _ => none)
      sampleVersion sampleVersion .vnil .tnil).2.1 _ rfl (by decide),
   ((C10_getFP_check (.tstring [1, 2, 3]) sampleRegistry (fun _ => none)
      sampleVersion sampleVersion .vnil .tnil).2.2.2 _ rfl (by decide)).1⟩

end FbLua
